import Mathlib

/-!
Verification of the vtagger backend (dimension DSL parser, mapping engine,
tagging pipeline, sync upload grouping, upstream client and progress
broadcaster) against its natural-language specification.

The Python sources are shallowly embedded: Python `str` becomes `String`
(operated on through its `List Char` data to keep kernel reduction cheap),
Python `dict` becomes an insertion-ordered association list, early-`return`
loops become structural recursions returning `Option`, and fallible code
returns `Option`/`Except`.
-/

/-- The single-quote character (code point 39), used by the DSL grammar. -/
def sqc : Char := Char.ofNat 39

/-- The double-quote character (code point 34). -/
def dqc : Char := Char.ofNat 34

/-- Python `str.lower()` restricted to the ASCII range used by the engine. -/
def lowerStr (s : String) : String := ⟨s.data.map Char.toLower⟩

/-- Whitespace class of the regex `\s` / Python `str.strip()`. -/
def isSpaceCh (c : Char) : Bool :=
  c = ' ' || c = Char.ofNat 9 || c = Char.ofNat 10 || c = Char.ofNat 13 ||
  c = Char.ofNat 11 || c = Char.ofNat 12

/-- Prefix test on character lists. -/
def isPrefixL : List Char → List Char → Bool
  | [], _ => true
  | _ :: _, [] => false
  | p :: ps, c :: cs => p = c && isPrefixL ps cs

/-- Python substring containment `needle in hay`. -/
def isSubstrL (n : List Char) : List Char → Bool
  | [] => isPrefixL n []
  | c :: t => isPrefixL n (c :: t) || isSubstrL n t

/-- Substring containment on `String`, as the Python `in` operator. -/
def strContainsSub (needle hay : String) : Bool := isSubstrL needle.data hay.data

/-- Strip a literal prefix, returning the remainder on success. -/
def stripPre : List Char → List Char → Option (List Char)
  | [], s => some s
  | _ :: _, [] => none
  | p :: ps, c :: cs => if p = c then stripPre ps cs else none

/-- First-match lookup in an insertion-ordered association list (Python `dict.get`). -/
def alookup {α β : Type} [DecidableEq α] : List (α × β) → α → Option β
  | [], _ => none
  | (k, v) :: t, a => if k = a then some v else alookup t a

/-- Python `dict` assignment: overwrite in place if the key exists, else append. -/
def aset {α β : Type} [DecidableEq α] : List (α × β) → α → β → List (α × β)
  | [], k, v => [(k, v)]
  | (k', v') :: t, k, v => if k' = k then (k, v) :: t else (k', v') :: aset t k v

/-- Drop leading regex whitespace (`\s*`). -/
def dropWs (s : List Char) : List Char := s.dropWhile isSpaceCh

/-- Strip whitespace from both ends (Python `str.strip()`). -/
def stripWsBoth (s : List Char) : List Char :=
  ((s.dropWhile isSpaceCh).reverse.dropWhile isSpaceCh).reverse

/-- Single- or double-quote character class, for `strip("'\"")`. -/
def isQuoteCh (c : Char) : Bool := c = sqc || c = dqc

/-- Strip quote characters from both ends (Python `value_expr.strip("'\"")`). -/
def stripQuotesBoth (s : List Char) : List Char :=
  ((s.dropWhile isQuoteCh).reverse.dropWhile isQuoteCh).reverse

/-- Source accessor of a DSL atom: `TAG[...]` or `DIMENSION[...]`. -/
inductive SrcT where
  | tag
  | dim
deriving DecidableEq, Repr

/-- Comparison operator of a DSL atom. -/
inductive OpT where
  | eq
  | contains
deriving DecidableEq, Repr

/-- Parsed condition, as produced by `_parse_single_expr` in `dsl_parser.py`. -/
structure Cond where
  src : SrcT
  key : String
  op : OpT
  value : String
deriving DecidableEq, Repr

/-- Raw atom before classification: key, operator (`true` = `==`), literal. -/
structure RawAtom where
  key : List Char
  opEq : Bool
  value : List Char
deriving DecidableEq, Repr

/-- Tail of the value part `\s*'([^']*)'` of an atom regex. -/
def parseValuePart (key : List Char) (opEq : Bool) (s : List Char) : Option RawAtom :=
  match dropWs s with
  | [] => none
  | c :: rest =>
    if c = sqc then
      let v := rest.takeWhile (fun ch => ch ≠ sqc)
      match rest.dropWhile (fun ch => ch ≠ sqc) with
      | [] => none
      | _ :: _ => some ⟨key, opEq, v⟩
    else none

/-- Tail of the atom regex after the `SRC['` opening: `([^']+)'\]\s*(==|CONTAINS)\s*'([^']*)'`. -/
def parseAtomTail (s : List Char) : Option RawAtom :=
  let key := s.takeWhile (fun ch => ch ≠ sqc)
  if key = [] then none
  else
    match s.dropWhile (fun ch => ch ≠ sqc) with
    | [] => none
    | _ :: rest1 =>
      match stripPre [']'] rest1 with
      | none => none
      | some rest2 =>
        let rest3 := dropWs rest2
        match stripPre ['=', '='] rest3 with
        | some rest4 => parseValuePart key true rest4
        | none =>
          match stripPre "CONTAINS".data rest3 with
          | some rest4 => parseValuePart key false rest4
          | none => none

/-- Opening literal `TAG['` of `_TAG_PATTERN`. -/
def tagOpen : List Char := "TAG[".data ++ [sqc]

/-- Opening literal `DIMENSION['` of `_DIM_PATTERN`. -/
def dimOpen : List Char := "DIMENSION[".data ++ [sqc]

/-- Opening literal `BUSINESS_DIMENSION['` of `_DIM_PATTERN`. -/
def bdimOpen : List Char := "BUSINESS_DIMENSION[".data ++ [sqc]

/-- Leftmost search of `_TAG_PATTERN` (regex `.search` semantics). -/
def searchTagAtom : List Char → Option RawAtom
  | [] => none
  | c :: rest =>
    match stripPre tagOpen (c :: rest) with
    | some tail =>
      match parseAtomTail tail with
      | some a => some a
      | none => searchTagAtom rest
    | none => searchTagAtom rest

/-- Leftmost search of `_DIM_PATTERN`, with the optional `BUSINESS_` prefix tried greedily. -/
def searchDimAtom : List Char → Option RawAtom
  | [] => none
  | c :: rest =>
    match stripPre bdimOpen (c :: rest) with
    | some tail =>
      match parseAtomTail tail with
      | some a => some a
      | none => searchDimAtom rest
    | none =>
      match stripPre dimOpen (c :: rest) with
      | some tail =>
        match parseAtomTail tail with
        | some a => some a
        | none => searchDimAtom rest
      | none => searchDimAtom rest

/-- Embedding of `_parse_single_expr`: TAG pattern first, then DIMENSION; the
literal is lowercased, the key is kept verbatim. -/
def parseSingleExpr (s : String) : Option Cond :=
  match searchTagAtom s.data with
  | some a => some ⟨SrcT.tag, ⟨a.key⟩, if a.opEq then OpT.eq else OpT.contains, lowerStr ⟨a.value⟩⟩
  | none =>
    match searchDimAtom s.data with
    | some a => some ⟨SrcT.dim, ⟨a.key⟩, if a.opEq then OpT.eq else OpT.contains, lowerStr ⟨a.value⟩⟩
    | none => none

/-- Split at the first occurrence of a separator, if any. -/
def findSplit (sep : List Char) : List Char → Option (List Char × List Char)
  | [] => none
  | c :: rest =>
    if isPrefixL sep (c :: rest) then some ([], (c :: rest).drop sep.length)
    else
      match findSplit sep rest with
      | some (p, q) => some (c :: p, q)
      | none => none

/-- Fueled split on every occurrence of a separator (Python `str.split(sep)`). -/
def splitFuel (sep : List Char) : Nat → List Char → List (List Char)
  | 0, s => [s]
  | fuel + 1, s =>
    match findSplit sep s with
    | none => [s]
    | some (pre, post) => pre :: splitFuel sep fuel post

/-- The disjunction separator `" || "`. -/
def sepBars : List Char := " || ".data

/-- Embedding of `parse_expression` in `dsl_parser.py`. -/
def parse_expression (s : String) : List Cond :=
  if isSubstrL sepBars s.data then
    ((splitFuel sepBars s.data.length s.data).map
      (fun p => parseSingleExpr ⟨stripWsBoth p⟩)).filterMap id
  else
    match parseSingleExpr s with
    | some c => [c]
    | none => []

/-- First quoted group of `_VALUE_PATTERN` (`'([^']*)'`), if present. -/
def findQuoted : List Char → Option (List Char)
  | [] => none
  | c :: rest =>
    if c = sqc then
      match rest.dropWhile (fun ch => ch ≠ sqc) with
      | [] => none
      | _ :: _ => some (rest.takeWhile (fun ch => ch ≠ sqc))
    else findQuoted rest

/-- Embedding of `parse_value_expression` in `dsl_parser.py`. -/
def parse_value_expression (s : String) : String :=
  match findQuoted s.data with
  | some v => ⟨v⟩
  | none => ⟨stripQuotesBoth s.data⟩

/-- Statement of a dimension: a match expression and a value expression. -/
structure Stmt where
  matchExpression : String
  valueExpression : String
deriving DecidableEq, Repr

/-- Compiled lookup structures, as returned by `build_indexes` in `dsl_parser.py`. -/
structure Indexes where
  tag_exact : List ((String × String) × String)
  dim_exact : List ((String × String) × String)
  tag_contains : List (String × String × String)
  dim_contains : List (String × String × String)
  tag_keys_used : List String
  dim_keys_used : List String
deriving DecidableEq, Repr

/-- Insert into an exact-match table only if the key pair is absent (first wins). -/
def addIfAbsentKey (l : List ((String × String) × String)) (k : String × String)
    (v : String) : List ((String × String) × String) :=
  match alookup l k with
  | some _ => l
  | none => l ++ [(k, v)]

/-- Ordered-set insertion for the `*_keys_used` sets. -/
def addSet (l : List String) (k : String) : List String := if k ∈ l then l else l ++ [k]

/-- Fold one parsed condition into the indexes, exactly as `build_indexes` does:
exact entries deduplicate first-wins; a TAG `CONTAINS` entry is suppressed when
the same `(key, value)` pair already sits in `tag_exact`; DIM `CONTAINS` entries
are appended unconditionally. -/
def applyCond (idx : Indexes) (result : String) : Cond → Indexes
  | ⟨SrcT.tag, key, OpT.eq, value⟩ =>
    { idx with tag_keys_used := addSet idx.tag_keys_used key,
               tag_exact := addIfAbsentKey idx.tag_exact (key, value) result }
  | ⟨SrcT.tag, key, OpT.contains, value⟩ =>
    match alookup idx.tag_exact (key, value) with
    | some _ => { idx with tag_keys_used := addSet idx.tag_keys_used key }
    | none =>
      { idx with tag_keys_used := addSet idx.tag_keys_used key,
                 tag_contains := idx.tag_contains ++ [(key, value, result)] }
  | ⟨SrcT.dim, key, OpT.eq, value⟩ =>
    { idx with dim_keys_used := addSet idx.dim_keys_used key,
               dim_exact := addIfAbsentKey idx.dim_exact (key, value) result }
  | ⟨SrcT.dim, key, OpT.contains, value⟩ =>
    { idx with dim_keys_used := addSet idx.dim_keys_used key,
               dim_contains := idx.dim_contains ++ [(key, value, result)] }

/-- Fold one statement into the indexes. -/
def applyStmt (idx : Indexes) (s : Stmt) : Indexes :=
  (parse_expression s.matchExpression).foldl
    (fun i c => applyCond i (parse_value_expression s.valueExpression) c) idx

/-- Embedding of `build_indexes` in `dsl_parser.py`. -/
def build_indexes (stmts : List Stmt) : Indexes :=
  stmts.foldl applyStmt ⟨[], [], [], [], [], []⟩

/-- A compiled dimension, as the `Dimension` class of `mapping_engine.py`. -/
structure DimensionC where
  vtag_name : String
  default_value : String
  statements : List Stmt
  indexes : Indexes
deriving DecidableEq, Repr

/-- The `Dimension.__init__` constructor: pre-parse the statements. -/
def mkDimension (name default : String) (stmts : List Stmt) : DimensionC :=
  ⟨name, default, stmts, build_indexes stmts⟩

/-- A tag or dimension context: insertion-ordered `key → value` pairs. -/
abbrev Ctx := List (String × String)

/-- Fast paths 1 and 2 of `Dimension.match`: walk the context, skip falsy values,
look the lowercased value up in the exact table, and accept only truthy results. -/
def scanExact (ex : List ((String × String) × String)) : Ctx → Option String
  | [] => none
  | (k, v) :: rest =>
    if v = "" then scanExact ex rest
    else
      match alookup ex (k, lowerStr v) with
      | some r => if r = "" then scanExact ex rest else some r
      | none => scanExact ex rest

/-- Inner loop of fast paths 3 and 4: first entry whose key matches and whose
substring occurs in the lowercased value. -/
def findFirstContains (entries : List (String × String × String)) (k lv : String) :
    Option String :=
  match entries with
  | [] => none
  | (ck, cv, r) :: t =>
    if ck = k then
      if strContainsSub cv lv then some r else findFirstContains t k lv
    else findFirstContains t k lv

/-- Fast paths 3 and 4 of `Dimension.match`: walk the context, skip falsy values,
scan the contains entries in insertion order. -/
def scanContains (entries : List (String × String × String)) : Ctx → Option String
  | [] => none
  | (k, v) :: rest =>
    if v = "" then scanContains entries rest
    else
      match findFirstContains entries k (lowerStr v) with
      | some r => some r
      | none => scanContains entries rest

/-- Embedding of `Dimension.match` in `mapping_engine.py`: the four fast paths in
source order with early return, then the default value. -/
def dimMatch (d : DimensionC) (tagCtx dimCtx : Ctx) : String :=
  match scanExact d.indexes.tag_exact tagCtx with
  | some r => r
  | none =>
    match scanExact d.indexes.dim_exact dimCtx with
    | some r => r
    | none =>
      match scanContains d.indexes.tag_contains tagCtx with
      | some r => r
      | none =>
        match scanContains d.indexes.dim_contains dimCtx with
        | some r => r
        | none => d.default_value

/-- First-hit-wins composition used by the specification-side resolver. -/
def orElseO (a b : Option String) : Option String :=
  match a with
  | some r => some r
  | none => b

/-- Specification-side hit predicate for an exact phase at one context entry. -/
def exactHit (ex : List ((String × String) × String)) (p : String × String) :
    Option String :=
  if p.2 = "" then none
  else
    match alookup ex (p.1, lowerStr p.2) with
    | some r => if r = "" then none else some r
    | none => none

/-- Specification-side hit predicate for a contains phase at one context entry. -/
def containsHit (entries : List (String × String × String)) (p : String × String) :
    Option String :=
  if p.2 = "" then none
  else
    entries.findSome? fun e =>
      if e.1 = p.1 then
        if strContainsSub e.2.1 (lowerStr p.2) then some e.2.2 else none
      else none

/-- Modelled from the spec: single-dimension resolution evaluates TAG exact, then
DIMENSION exact, then TAG contains in insertion order, then DIMENSION contains,
first hit wins, and falls back to the default value. -/
def resolveSpec (d : DimensionC) (tagCtx dimCtx : Ctx) : String :=
  (orElseO (tagCtx.findSome? (exactHit d.indexes.tag_exact))
    (orElseO (dimCtx.findSome? (exactHit d.indexes.dim_exact))
      (orElseO (tagCtx.findSome? (containsHit d.indexes.tag_contains))
        (dimCtx.findSome? (containsHit d.indexes.dim_contains))))).getD d.default_value

/-- Convenience literal: a one-character string holding the single quote. -/
def sqs : String := ⟨[sqc]⟩

/-- The empty substring is contained in every string. -/
theorem isSubstrL_nil (l : List Char) : isSubstrL [] l = true := by
  cases l <;> simp [isSubstrL, isPrefixL]

/-- Scanning an exact phase over any context with an empty table finds nothing. -/
theorem scanExact_nil (ctx : Ctx) : scanExact [] ctx = none := by
  induction ctx with
  | nil => rfl
  | cons p rest ih =>
    obtain ⟨k, v⟩ := p
    simp [scanExact, alookup, ih]

/-- The recursive exact-phase scan equals a first-hit search with `exactHit`. -/
theorem scanExact_eq (ex : List ((String × String) × String)) (ctx : Ctx) :
    scanExact ex ctx = ctx.findSome? (exactHit ex) := by
  induction ctx with
  | nil => rfl
  | cons p rest ih =>
    obtain ⟨k, v⟩ := p
    simp only [scanExact, List.findSome?, exactHit]
    by_cases hv : v = ""
    · simp [hv, ih]
    · simp only [hv, if_neg hv, ite_false]
      cases halo : alookup ex (k, lowerStr v) with
      | none => simpa using ih
      | some r =>
        by_cases hr : r = ""
        · simp [hr, ih]
        · simp [hr]

/-- The recursive contains-entry search equals a first-hit search over entries. -/
theorem findFirstContains_eq (k lv : String) (es : List (String × String × String)) :
    findFirstContains es k lv =
      es.findSome? fun e =>
        if e.1 = k then (if strContainsSub e.2.1 lv then some e.2.2 else none)
        else none := by
  induction es with
  | nil => rfl
  | cons e t ih =>
    obtain ⟨ck, cv, r⟩ := e
    simp only [findFirstContains, List.findSome?]
    by_cases hk : ck = k
    · by_cases hc : strContainsSub cv lv
      · simp [hk, hc]
      · simp [hk, hc, ih]
    · simp [hk, ih]

/-- The recursive contains-phase scan equals a first-hit search with `containsHit`. -/
theorem scanContains_eq (es : List (String × String × String)) (ctx : Ctx) :
    scanContains es ctx = ctx.findSome? (containsHit es) := by
  induction ctx with
  | nil => rfl
  | cons p rest ih =>
    obtain ⟨k, v⟩ := p
    simp only [scanContains, List.findSome?, containsHit]
    by_cases hv : v = ""
    · simp [hv, ih]
    · simp only [hv, if_neg hv, ite_false]
      rw [← findFirstContains_eq]
      cases findFirstContains es k (lowerStr v) with
      | none => simpa using ih
      | some r => rfl

/-- C1: for every compiled dimension and pair of contexts, `Dimension.match`
resolves by the fixed phase order TAG exact, DIMENSION exact, TAG contains in
insertion order, DIMENSION contains, first hit winning, and returns the
dimension's `default_value` when no phase hits; being a total function of its
inputs it always returns a value. -/
theorem dimension_match_phase_order (d : DimensionC) (tagCtx dimCtx : Ctx) :
    dimMatch d tagCtx dimCtx = resolveSpec d tagCtx dimCtx := by
  unfold dimMatch resolveSpec orElseO
  rw [scanExact_eq, scanExact_eq, scanContains_eq, scanContains_eq]
  cases tagCtx.findSome? (exactHit d.indexes.tag_exact) <;>
    cases dimCtx.findSome? (exactHit d.indexes.dim_exact) <;>
      cases tagCtx.findSome? (containsHit d.indexes.tag_contains) <;>
        cases dimCtx.findSome? (containsHit d.indexes.dim_contains) <;> rfl

/-- Key tuples of an exact-match table. -/
def exactKeys (l : List ((String × String) × String)) : List (String × String) :=
  l.map Prod.fst

/-- A lookup misses exactly when the key is absent. -/
theorem alookup_eq_none_iff {α β : Type} [DecidableEq α] (l : List (α × β)) (k : α) :
    alookup l k = none ↔ k ∉ l.map Prod.fst := by
  induction l with
  | nil => simp [alookup]
  | cons p t ih =>
    obtain ⟨k', v'⟩ := p
    by_cases h : k' = k
    · subst h
      simp [alookup]
    · simp only [alookup, if_neg h, ih, List.map_cons, List.mem_cons]
      constructor
      · intro hk hor
        rcases hor with h1 | h2
        · exact h h1.symm
        · exact hk h2
      · intro hk h2
        exact hk (Or.inr h2)

/-- Conditional insertion preserves distinctness of the table's keys. -/
theorem nodup_addIfAbsentKey (l : List ((String × String) × String))
    (k : String × String) (v : String) (h : (exactKeys l).Nodup) :
    (exactKeys (addIfAbsentKey l k v)).Nodup := by
  unfold addIfAbsentKey
  cases halo : alookup l k with
  | some r => exact h
  | none =>
    have hk : k ∉ l.map Prod.fst := (alookup_eq_none_iff l k).mp halo
    have hkeys : exactKeys (l ++ [(k, v)]) = exactKeys l ++ [k] := by
      simp [exactKeys]
    rw [hkeys]
    refine h.append (List.nodup_singleton k) ?_
    intro x hx hx2
    have hxk : x = k := by simpa using hx2
    subst hxk
    exact hk hx

/-- Folding one condition preserves distinctness of both exact tables' keys. -/
theorem nodup_applyCond (idx : Indexes) (r : String) (c : Cond)
    (h1 : (exactKeys idx.tag_exact).Nodup) (h2 : (exactKeys idx.dim_exact).Nodup) :
    (exactKeys (applyCond idx r c).tag_exact).Nodup ∧
      (exactKeys (applyCond idx r c).dim_exact).Nodup := by
  obtain ⟨src, key, op, value⟩ := c
  cases src <;> cases op
  · exact ⟨nodup_addIfAbsentKey _ _ _ h1, h2⟩
  · simp only [applyCond]
    cases alookup idx.tag_exact (key, value) <;> exact ⟨h1, h2⟩
  · exact ⟨h1, nodup_addIfAbsentKey _ _ _ h2⟩
  · exact ⟨h1, h2⟩

/-- Folding a list of conditions preserves distinctness of both exact tables' keys. -/
theorem nodup_foldl_conds (res : String) (conds : List Cond) :
    ∀ idx : Indexes, (exactKeys idx.tag_exact).Nodup → (exactKeys idx.dim_exact).Nodup →
      (exactKeys ((conds.foldl (fun i c => applyCond i res c) idx)).tag_exact).Nodup ∧
        (exactKeys ((conds.foldl (fun i c => applyCond i res c) idx)).dim_exact).Nodup := by
  induction conds with
  | nil => exact fun idx h1 h2 => ⟨h1, h2⟩
  | cons c t ih =>
    intro idx h1 h2
    have h := nodup_applyCond idx res c h1 h2
    simpa [List.foldl_cons] using ih _ h.1 h.2

/-- Folding statements preserves distinctness of both exact tables' keys. -/
theorem nodup_foldl_stmts (stmts : List Stmt) :
    ∀ idx : Indexes, (exactKeys idx.tag_exact).Nodup → (exactKeys idx.dim_exact).Nodup →
      (exactKeys ((stmts.foldl applyStmt idx)).tag_exact).Nodup ∧
        (exactKeys ((stmts.foldl applyStmt idx)).dim_exact).Nodup := by
  induction stmts with
  | nil => exact fun idx h1 h2 => ⟨h1, h2⟩
  | cons s t ih =>
    intro idx h1 h2
    have h := nodup_foldl_conds (parse_value_expression s.valueExpression)
      (parse_expression s.matchExpression) idx h1 h2
    simpa [List.foldl_cons, applyStmt] using ih _ h.1 h.2

/-- The compiled exact tables of `build_indexes` have pairwise-distinct keys. -/
theorem nodup_build_indexes (stmts : List Stmt) :
    (exactKeys (build_indexes stmts).tag_exact).Nodup ∧
      (exactKeys (build_indexes stmts).dim_exact).Nodup := by
  unfold build_indexes
  exact nodup_foldl_stmts stmts _ (by simp [exactKeys]) (by simp [exactKeys])

/-- Predicate selecting table entries whose result value is nonempty. -/
def neEmpty (e : (String × String) × String) : Bool := e.2 ≠ ""

/-- Under distinct keys, filtering empty-valued entries from a table turns a
looked-up empty value into a miss and keeps every other lookup unchanged. -/
theorem alookup_filter_ne (l : List ((String × String) × String)) (k : String × String)
    (h : (exactKeys l).Nodup) :
    alookup (l.filter neEmpty) k =
      match alookup l k with
      | none => none
      | some r => if r = "" then none else some r := by
  induction l with
  | nil => rfl
  | cons p t ih =>
    obtain ⟨k', v'⟩ := p
    have hn := List.nodup_cons.mp h
    have ihh := ih hn.2
    by_cases hv : v' = ""
    · have hf : List.filter neEmpty ((k', v') :: t) = List.filter neEmpty t := by
        simp [List.filter_cons, neEmpty, hv]
      rw [hf]
      by_cases hk : k' = k
      · subst hk
        have hnot : k' ∉ (t.filter neEmpty).map Prod.fst := by
          intro hm
          obtain ⟨e, he, hfst⟩ := List.mem_map.mp hm
          have hmt : e.1 ∈ List.map Prod.fst t :=
            List.mem_map_of_mem Prod.fst (List.mem_filter.mp he).1
          rw [hfst] at hmt
          exact hn.1 hmt
        rw [(alookup_eq_none_iff _ _).mpr hnot]
        simp [alookup, hv]
      · rw [ihh]
        simp [alookup, hk]
    · have hf : List.filter neEmpty ((k', v') :: t) = (k', v') :: List.filter neEmpty t := by
        simp [List.filter_cons, neEmpty, hv]
      rw [hf]
      by_cases hk : k' = k
      · subst hk
        simp [alookup, hv]
      · simp [alookup, hk, ihh]

/-- Under distinct keys, the exact-phase scan ignores empty-valued entries. -/
theorem scanExact_filterEmpty (ex : List ((String × String) × String))
    (h : (exactKeys ex).Nodup) (ctx : Ctx) :
    scanExact (ex.filter neEmpty) ctx = scanExact ex ctx := by
  induction ctx with
  | nil => rfl
  | cons p rest ih =>
    obtain ⟨k, v⟩ := p
    by_cases hv : v = ""
    · simp only [scanExact, if_pos hv, ih]
    · simp only [scanExact, if_neg hv]
      rw [alookup_filter_ne _ _ h]
      cases halo : alookup ex (k, lowerStr v) with
      | none => exact ih
      | some r =>
        by_cases hr : r = ""
        · simp [hr, ih]
        · simp [hr]

/-- Drop all empty-valued entries from both exact tables of compiled indexes. -/
def filterEmptyExact (idx : Indexes) : Indexes :=
  { idx with tag_exact := idx.tag_exact.filter neEmpty,
             dim_exact := idx.dim_exact.filter neEmpty }

/-- C9 (amended): an exact-match entry whose compiled result value is the empty
string can never produce a match — `Dimension.match` over the compiled indexes
is unchanged when every empty-valued entry is removed from the exact tables, so
evaluation always falls through to the contains phases or the default value.
(The original claim that resolution behaves as if the whole statement were
absent fails: the empty entry still occupies its `(key, value)` slot during
compilation and can shadow a later statement, see the counterexample.) -/
theorem empty_exact_result_never_matches (name default : String) (stmts : List Stmt)
    (tagCtx dimCtx : Ctx) :
    dimMatch (mkDimension name default stmts) tagCtx dimCtx =
      dimMatch ⟨name, default, stmts, filterEmptyExact (build_indexes stmts)⟩ tagCtx dimCtx := by
  have h := nodup_build_indexes stmts
  unfold dimMatch
  simp only [mkDimension, filterEmptyExact]
  rw [scanExact_filterEmpty _ h.1, scanExact_filterEmpty _ h.2]

/-- Statement whose value expression is the empty literal. -/
def emptyValueEqStmt : Stmt :=
  ⟨"TAG[" ++ sqs ++ "k" ++ sqs ++ "] == " ++ sqs ++ "a" ++ sqs, sqs ++ sqs⟩

/-- Statement with the same match expression and a real value. -/
def shadowedEqStmt : Stmt :=
  ⟨"TAG[" ++ sqs ++ "k" ++ sqs ++ "] == " ++ sqs ++ "a" ++ sqs, sqs ++ "X" ++ sqs⟩

/-- C9 counterexample: a dimension holding an exact statement whose value parses
to the empty string does not resolve as if that statement were absent — the
empty entry blocks a later exact statement on the same `(key, value)` pair, so
the pair resolves to the default instead of the later statement's value. -/
theorem c9_counterexample :
    parse_value_expression emptyValueEqStmt.valueExpression = "" ∧
    dimMatch (mkDimension "d" "D" [emptyValueEqStmt, shadowedEqStmt]) [("k", "a")] [] = "D" ∧
    dimMatch (mkDimension "d" "D" [shadowedEqStmt]) [("k", "a")] [] = "X" := by
  decide

/-- A single empty-substring contains entry hits as soon as the context holds a
nonempty value under its key. -/
theorem scanContains_single_empty (k res : String) (ctx : Ctx) :
    ∀ v : String, (k, v) ∈ ctx → v ≠ "" → scanContains [(k, "", res)] ctx = some res := by
  induction ctx with
  | nil =>
    intro v h
    simp at h
  | cons p rest ih =>
    intro v hmem hv
    obtain ⟨k', v'⟩ := p
    by_cases hv' : v' = ""
    · have hmem' : (k, v) ∈ rest := by
        rcases List.mem_cons.mp hmem with he | ht
        · exact absurd ((congrArg Prod.snd he).trans hv') hv
        · exact ht
      simp [scanContains, hv', ih v hmem' hv]
    · by_cases hk : k = k'
      · simp [scanContains, hv', findFirstContains, hk, strContainsSub, isSubstrL_nil]
      · have hmem' : (k, v) ∈ rest := by
          rcases List.mem_cons.mp hmem with he | ht
          · exact absurd (congrArg Prod.fst he) hk
          · exact ht
        simp [scanContains, hv', findFirstContains, hk, ih v hmem' hv]

/-- Concrete statement atom with an empty CONTAINS literal. -/
def tagContainsEmptyExpr : String :=
  "TAG[" ++ sqs ++ "env" ++ sqs ++ "] CONTAINS " ++ sqs ++ sqs

/-- Concrete value expression for the empty-CONTAINS statement. -/
def prodValueExpr : String := sqs ++ "Prod" ++ sqs

/-- C10: an atom with an empty CONTAINS literal is accepted by the expression
parser, and a dimension compiled from such a statement returns the statement's
value for every resource whose tag context holds any nonempty value under the
atom's key, regardless of that value's content. -/
theorem empty_contains_literal_matches_all :
    parse_expression tagContainsEmptyExpr = [⟨SrcT.tag, "env", OpT.contains, ""⟩] ∧
    ∀ (m ve k res nm d0 : String) (tagCtx dimCtx : Ctx) (v : String),
      parse_expression m = [⟨SrcT.tag, k, OpT.contains, ""⟩] →
      parse_value_expression ve = res →
      (k, v) ∈ tagCtx → v ≠ "" →
      dimMatch (mkDimension nm d0 [⟨m, ve⟩]) tagCtx dimCtx = res := by
  constructor
  · decide
  · intro m ve k res nm d0 tagCtx dimCtx v h1 h2 hmem hv
    have hidx : (mkDimension nm d0 [⟨m, ve⟩]).indexes =
        ⟨[], [], [(k, "", res)], [], [k], []⟩ := by
      simp [mkDimension, build_indexes, applyStmt, h1, h2, applyCond, alookup, addSet]
    unfold dimMatch
    rw [hidx]
    simp [scanExact_nil, scanContains_single_empty k res tagCtx v hmem hv]

/-- Witness for C10 at a concrete statement, value and context. -/
theorem empty_contains_literal_matches_all_witness :
    dimMatch (mkDimension "dim1" "Unallocated" [⟨tagContainsEmptyExpr, prodValueExpr⟩])
      [("env", "x")] [] = "Prod" :=
  empty_contains_literal_matches_all.2 tagContainsEmptyExpr prodValueExpr "env" "Prod"
    "dim1" "Unallocated" [("env", "x")] [] "x" (by decide) (by decide) (by decide) (by decide)

/-- String prefix test (Python `str.startswith`). -/
def strStarts (pre s : String) : Bool := isPrefixL pre.data s.data

/-- Drop the first `n` characters of a string (Python slicing `s[n:]`). -/
def dropStrPre (n : Nat) (s : String) : String := ⟨s.data.drop n⟩

/-- An upstream asset row: the `customTags` list field and the remaining
string-valued columns in wire order. -/
structure UResource where
  customTags : List (String × String)
  columns : List (String × String)
deriving DecidableEq, Repr

/-- Embedding of the tag-extraction section of `MappingEngine.map_resource`
(`mapping_engine.py` lines 163-179): method 1 copies `customTags` pairs
unconditionally; the column loop keeps raw `customTagValue_N` keys and strips
the `Tag: ` prefix, skipping falsy and `"no tag"` values. The function has no
`tag_column_map` parameter, exactly as in the source. -/
def mapResourceTags (r : UResource) : List (String × String) :=
  let t1 := r.customTags.foldl (fun acc kv => aset acc kv.1 kv.2) []
  r.columns.foldl
    (fun acc kv =>
      if strStarts "customTagValue_" kv.1 && (kv.2 != "") && (kv.2 != "no tag") then
        aset acc kv.1 kv.2
      else if strStarts "Tag: " kv.1 && (kv.2 != "") && (kv.2 != "no tag") then
        aset acc (dropStrPre 5 kv.1) kv.2
      else acc) t1

/-- Lexicographic character-list order. -/
def leCharList : List Char → List Char → Bool
  | [], _ => true
  | _ :: _, [] => false
  | a :: as, b :: bs => if a = b then leCharList as bs else decide (a < b)

/-- Lexicographic string order (Python default string comparison). -/
def leStr (a b : String) : Bool := leCharList a.data b.data

/-- Insertion into a sorted list of strings. -/
def insertSorted (x : String) : List String → List String
  | [] => [x]
  | y :: t => if leStr x y then x :: y :: t else y :: insertSorted x t

/-- Stable insertion sort (Python `sorted` on strings). -/
def sortStrings : List String → List String
  | [] => []
  | x :: t => insertSorted x (sortStrings t)

/-- Embedding of the column-map construction in `TaggingEngine.fetch_and_map`
(`tagging_engine.py` lines 211-218): map `customTagValue_{i+4}` to the i-th
sorted tag key. -/
def tag_column_map (tagKeys : List String) : List (String × String) :=
  (sortStrings tagKeys).enum.map (fun p => ("customTagValue_" ++ toString (p.1 + 4), p.2))

/-- Embedding of `_extract_tags` in `tagging_engine.py`: this pipeline helper,
unlike `map_resource`, translates `customTagValue_N` columns through the column
map and filters `"no tag"` in every channel. -/
def extract_tags (asset : UResource) (tagColumnMap : List (String × String)) :
    List (String × String) :=
  let t1 := asset.customTags.foldl
    (fun acc kv =>
      if (kv.1 != "") && (kv.2 != "") && (kv.2 != "no tag") then aset acc kv.1 kv.2
      else acc) []
  let t2 := tagColumnMap.foldl
    (fun acc cm =>
      let value := (alookup asset.columns cm.1).getD ""
      if (value != "") && (value != "no tag") then aset acc cm.2 value else acc) t1
  asset.columns.foldl
    (fun acc kv =>
      if strStarts "Tag: " kv.1 && (kv.2 != "") && (kv.2 != "no tag") then
        aset acc (dropStrPre 5 kv.1) kv.2
      else acc) t2

/-- C2 evidence: on an asset carrying `customTagValue_4 = "prod"` with the
pipeline column map `customTagValue_4 → env`, the tag context built by
`map_resource` keeps the untranslated positional key (and keeps a `"no tag"`
value arriving through `customTags`), so it holds no `env` key at all — while
the pipeline's own `_extract_tags` translates the column as the claim
describes. -/
theorem map_resource_ignores_tag_column_map :
    tag_column_map ["env"] = [("customTagValue_4", "env")] ∧
    mapResourceTags ⟨[("team", "no tag")], [("customTagValue_4", "prod")]⟩ =
      [("team", "no tag"), ("customTagValue_4", "prod")] ∧
    extract_tags ⟨[("team", "no tag")], [("customTagValue_4", "prod")]⟩
      (tag_column_map ["env"]) = [("env", "prod")] ∧
    alookup (mapResourceTags ⟨[("team", "no tag")], [("customTagValue_4", "prod")]⟩)
      "env" = none := by
  decide

/-- Reservoir size of the tagging pipeline (`TaggingEngine.SAMPLE_SIZE`). -/
def sampleSize : Nat := 50

/-- State of the reservoir-sampling loop in `fetch_and_map`: assets processed so
far (`stats.total_assets`), the reservoir, the trace of bounds passed to
`random.randint(0, bound - 1)`, and the pre-drawn random indexes. -/
structure SampState where
  total : Nat
  reservoir : List Nat
  boundTrace : List Nat
  oracle : List Nat
deriving DecidableEq, Repr

/-- One matched-or-unmatched record through the counting and sampling code of
`fetch_and_map` (`tagging_engine.py` lines 282, 338-343): every asset bumps
`total_assets`; only matched records are written and sampled; once the
reservoir is full the draw bound is `stats.total_assets`. -/
def sampStep (st : SampState) (rec : Bool × Nat) : SampState :=
  let total := st.total + 1
  if rec.1 then
    if st.reservoir.length < sampleSize then
      { st with total := total, reservoir := st.reservoir ++ [rec.2] }
    else
      let idx := st.oracle.headD 0
      { total := total
        reservoir := if idx < sampleSize then st.reservoir.set idx rec.2 else st.reservoir
        boundTrace := st.boundTrace ++ [total]
        oracle := st.oracle.tail }
  else { st with total := total }

/-- Run the sampling loop over a stream of `(matched, record-id)` pairs. -/
def runSampler (stream : List (Bool × Nat)) (oracle : List Nat) : SampState :=
  stream.foldl sampStep ⟨0, [], [], oracle⟩

/-- Modelled from the spec: the claimed draw bounds — for the i-th matched
record (i counting matched records only), once the first `sampleSize` are
added, the index is drawn uniformly from `[0, i)`. -/
def claimBounds : List (Bool × Nat) → Nat → List Nat
  | [], _ => []
  | (m, _) :: rest, cnt =>
    if m then
      if cnt + 1 > sampleSize then (cnt + 1) :: claimBounds rest (cnt + 1)
      else claimBounds rest (cnt + 1)
    else claimBounds rest cnt

/-- A stream of one unmatched record followed by 51 matched records. -/
def c3Stream : List (Bool × Nat) := (false, 0) :: (List.range 51).map (fun n => (true, n + 1))

set_option maxRecDepth 8192 in
/-- C3 evidence: with one unmatched record in front, the 51st matched record is
drawn with bound `stats.total_assets = 52` (all processed assets), while the
claimed reservoir scheme draws it from `[0, 51)` — the code's sample is not the
claimed uniform reservoir over the matched stream. -/
theorem reservoir_bound_counts_all_assets :
    (runSampler c3Stream [0]).boundTrace = [52] ∧ claimBounds c3Stream 0 = [51] := by
  decide

/-- Setting a key makes it the lookup result. -/
theorem alookup_aset_self {α β : Type} [DecidableEq α] (d : List (α × β)) (k : α) (v : β) :
    alookup (aset d k v) k = some v := by
  induction d with
  | nil => simp [aset, alookup]
  | cons p t ih =>
    obtain ⟨k', v'⟩ := p
    by_cases h : k' = k
    · simp [aset, alookup, h]
    · simp [aset, alookup, h, ih]

/-- Setting a key leaves other lookups unchanged. -/
theorem alookup_aset_ne {α β : Type} [DecidableEq α] (d : List (α × β)) (k k' : α) (v : β)
    (h : k ≠ k') : alookup (aset d k v) k' = alookup d k' := by
  induction d with
  | nil => simp [aset, alookup, h]
  | cons p t ih =>
    obtain ⟨k0, v0⟩ := p
    by_cases h0 : k0 = k
    · subst h0
      simp [aset, alookup, h]
    · simp [aset, alookup, h0, ih]

/-- Appending a fresh element preserves distinctness. -/
theorem nodup_append_singleton {α : Type} (l : List α) (a : α) (h : l.Nodup)
    (ha : a ∉ l) : (l ++ [a]).Nodup := by
  refine h.append (List.nodup_singleton a) ?_
  intro x hx hx2
  have hxa : x = a := by simpa using hx2
  subst hxa
  exact ha hx

/-- A JSONL record as read back by `SyncService._group_by_payer`. -/
structure JsonRecord where
  resourceid : String
  linkedaccid : String
  payeraccount : String
  dimensions : List (String × String)
deriving DecidableEq, Repr

/-- An upload-ready record built by `_group_by_payer`. -/
structure UploadRecord where
  resource_id : String
  linked_account : String
  vtags : String
deriving DecidableEq, Repr

/-- Grouping state: the per-payer groups and the per-payer seen resource ids. -/
structure GroupState where
  groups : List (String × List UploadRecord)
  seen : List (String × List String)
deriving DecidableEq, Repr

/-- Python string join with a separator. -/
def joinSep (sep : String) : List String → String
  | [] => ""
  | [x] => x
  | x :: xs => x ++ sep ++ joinSep sep xs

/-- Dimension values kept in the vtag string: truthy and not `Unallocated`. -/
def keepDim (p : String × String) : Bool := (p.2 != "") && (p.2 != "Unallocated")

/-- The vtag fragments `name:value` of a record's dimensions. -/
def vtagsOf (dims : List (String × String)) : List String :=
  (dims.filter keepDim).map (fun p => p.1 ++ ":" ++ p.2)

/-- Payer account of a record: `payeraccount` or, when falsy, `linkedaccid`. -/
def payerOf (r : JsonRecord) : String :=
  if r.payeraccount ≠ "" then r.payeraccount else r.linkedaccid

/-- Embedding of the loop body of `SyncService._group_by_payer`
(`sync_service.py` lines 779-825), in source order: resource-id validity
checks, payer fallback, duplicate check and seen registration, vtag build,
empty-vtag skip, then group append. -/
def groupStep (st : GroupState) (r : JsonRecord) : GroupState :=
  if r.resourceid = "" ∨ r.resourceid = "Not Available" then st
  else if r.resourceid.length > 255 then st
  else if payerOf r = "" then st
  else if r.resourceid ∈ (alookup st.seen (payerOf r)).getD [] then st
  else if vtagsOf r.dimensions = [] then
    { st with seen := aset st.seen (payerOf r) (((alookup st.seen (payerOf r)).getD []) ++ [r.resourceid]) }
  else
    { groups := aset st.groups (payerOf r) (((alookup st.groups (payerOf r)).getD []) ++ [⟨r.resourceid, r.linkedaccid, joinSep ";" (vtagsOf r.dimensions)⟩]),
      seen := aset st.seen (payerOf r) (((alookup st.seen (payerOf r)).getD []) ++ [r.resourceid]) }

/-- Embedding of `SyncService._group_by_payer` over already-parsed JSONL records. -/
def groupByPayer (records : List JsonRecord) : List (String × List UploadRecord) :=
  (records.foldl groupStep ⟨[], []⟩).groups

/-- Every vtag fragment is nonempty (it contains a colon). -/
theorem vtagsOf_ne_empty (dims : List (String × String)) :
    ∀ x ∈ vtagsOf dims, x ≠ "" := by
  intro x hx
  obtain ⟨p, hp, hpe⟩ := List.mem_map.mp hx
  intro he
  rw [← hpe] at he
  have hd := congrArg String.data he
  simp [String.data_append] at hd

/-- Joining a nonempty list of nonempty fragments yields a nonempty string. -/
theorem joinSep_ne_empty (sep : String) (vt : List String) (h : vt ≠ [])
    (hall : ∀ x ∈ vt, x ≠ "") : joinSep sep vt ≠ "" := by
  match vt with
  | [] => exact absurd rfl h
  | [x] => exact hall x (List.mem_singleton_self x)
  | x :: y :: t =>
    intro he
    have hd := congrArg String.data he
    simp only [joinSep, String.data_append] at hd
    rcases List.append_eq_nil.mp hd with ⟨hd1, _⟩
    rcases List.append_eq_nil.mp hd1 with ⟨hx, _⟩
    exact hall x (List.mem_cons_self x (y :: t)) (by cases x; simp_all)

/-- Invariant carried through the grouping fold: every grouped row has a valid,
per-payer-registered resource id and a nonempty vtag string, and the row ids
within one payer are pairwise distinct. -/
def StInv (st : GroupState) : Prop :=
  ∀ p rows, alookup st.groups p = some rows →
    (∀ row ∈ rows,
      (row.resource_id ≠ "" ∧ row.resource_id ≠ "Not Available" ∧
        row.resource_id.length ≤ 255 ∧ row.vtags ≠ "") ∧
      row.resource_id ∈ (alookup st.seen p).getD []) ∧
    (rows.map (fun row => row.resource_id)).Nodup

/-- The empty grouping state satisfies the invariant. -/
theorem stinv_empty : StInv ⟨[], []⟩ := by
  intro p rows h
  simp [alookup] at h

/-- One grouping step preserves the invariant. -/
theorem stinv_step (st : GroupState) (r : JsonRecord) (h : StInv st) :
    StInv (groupStep st r) := by
  unfold groupStep
  split_ifs with h1 h2 h3 h4 h5
  · exact h
  · exact h
  · exact h
  · exact h
  · -- empty vtags: groups unchanged, seen grows for payerOf r
    intro p rows hrows
    have old := h p rows hrows
    refine ⟨fun row hrow => ⟨(old.1 row hrow).1, ?_⟩, old.2⟩
    by_cases hp : payerOf r = p
    · subst hp
      rw [alookup_aset_self]
      exact List.mem_append_left _ ((old.1 row hrow).2)
    · rw [alookup_aset_ne _ _ _ _ hp]
      exact (old.1 row hrow).2
  · -- kept record
    intro p rows hrows
    by_cases hp : payerOf r = p
    · subst hp
      rw [alookup_aset_self] at hrows
      have hrows' := (Option.some.inj hrows).symm
      subst hrows'
      have hvalid0 : ∀ row ∈ (alookup st.groups (payerOf r)).getD [],
          (row.resource_id ≠ "" ∧ row.resource_id ≠ "Not Available" ∧
            row.resource_id.length ≤ 255 ∧ row.vtags ≠ "") ∧
          row.resource_id ∈ (alookup st.seen (payerOf r)).getD [] := by
        cases halo : alookup st.groups (payerOf r) with
        | none => simp
        | some rows0 => simpa using (h (payerOf r) rows0 halo).1
      have hnodup0 : (((alookup st.groups (payerOf r)).getD []).map
          (fun row => row.resource_id)).Nodup := by
        cases halo : alookup st.groups (payerOf r) with
        | none => simp
        | some rows0 => simpa using (h (payerOf r) rows0 halo).2
      have hid1 : r.resourceid ≠ "" := fun he => h1 (Or.inl he)
      have hid2 : r.resourceid ≠ "Not Available" := fun he => h1 (Or.inr he)
      have hid3 : r.resourceid.length ≤ 255 := Nat.le_of_not_lt h2
      have hvt : joinSep ";" (vtagsOf r.dimensions) ≠ "" :=
        joinSep_ne_empty ";" _ h5 (vtagsOf_ne_empty r.dimensions)
      constructor
      · intro row hrow
        rcases List.mem_append.mp hrow with hold | hnew
        · refine ⟨(hvalid0 row hold).1, ?_⟩
          rw [alookup_aset_self]
          exact List.mem_append_left _ ((hvalid0 row hold).2)
        · have hrw : row = ⟨r.resourceid, r.linkedaccid, joinSep ";" (vtagsOf r.dimensions)⟩ := by
            simpa using hnew
          subst hrw
          refine ⟨⟨hid1, hid2, hid3, hvt⟩, ?_⟩
          rw [alookup_aset_self]
          exact List.mem_append_right _ (List.mem_singleton_self _)
      · rw [List.map_append]
        refine nodup_append_singleton _ _ hnodup0 ?_
        intro hmem
        obtain ⟨row, hrow, hre⟩ := List.mem_map.mp hmem
        have := (hvalid0 row hrow).2
        rw [hre] at this
        exact h4 this
    · rw [alookup_aset_ne _ _ _ _ hp] at hrows
      have old := h p rows hrows
      refine ⟨fun row hrow => ⟨(old.1 row hrow).1, ?_⟩, old.2⟩
      rw [alookup_aset_ne _ _ _ _ hp]
      exact (old.1 row hrow).2

/-- The invariant holds after folding any record list. -/
theorem stinv_fold (records : List JsonRecord) :
    ∀ st : GroupState, StInv st → StInv (records.foldl groupStep st) := by
  induction records with
  | nil => exact fun st h => h
  | cons r t ih => exact fun st h => ih _ (stinv_step st r h)

/-- C4 (amended): `_group_by_payer` drops records whose resource id is empty,
`Not Available`, or longer than 255 characters, removes duplicates by resource
id inside each payer, and skips records whose vtag string is empty — but that
skip happens after the duplicate registration, so an empty-vtag record still
consumes its resource id slot (see the counterexample). Consequently no
per-payer group holds a row whose Resource ID is empty, `Not Available`, longer
than 255 characters, or a duplicate of another row's Resource ID in that payer,
and every kept row has a nonempty vtag string. -/
theorem upload_groups_invariant (records : List JsonRecord) (p : String)
    (rows : List UploadRecord) (h : alookup (groupByPayer records) p = some rows) :
    (∀ row ∈ rows,
      row.resource_id ≠ "" ∧ row.resource_id ≠ "Not Available" ∧
        row.resource_id.length ≤ 255 ∧ row.vtags ≠ "") ∧
    (rows.map (fun row => row.resource_id)).Nodup := by
  have hinv : StInv (records.foldl groupStep ⟨[], []⟩) :=
    stinv_fold records ⟨[], []⟩ stinv_empty
  have hh := hinv p rows h
  exact ⟨fun row hrow => (hh.1 row hrow).1, hh.2⟩

/-- A record whose dimensions are all `Unallocated` (empty vtag string). -/
def c4recEmptyVtags : JsonRecord := ⟨"r", "l", "p", [("d", "Unallocated")]⟩

/-- A record with the same payer and resource id and a real dimension value. -/
def c4recReal : JsonRecord := ⟨"r", "l", "p", [("d", "X")]⟩

/-- C4 counterexample: an empty-vtag record is not skipped before
deduplication — it registers its resource id first, so a later record with the
same payer and resource id and a nonempty vtag string is dropped as a
duplicate, leaving no groups at all; with the empty-vtag record absent the
later record is kept. -/
theorem c4_counterexample :
    groupByPayer [c4recEmptyVtags, c4recReal] = [] ∧
    groupByPayer [c4recReal] = [("p", [⟨"r", "l", "d:X"⟩])] := by
  decide

/-- Witness for the amended C4 invariant at a concrete record list. -/
theorem upload_groups_invariant_witness :
    (∀ row ∈ [(⟨"r", "l", "d:X"⟩ : UploadRecord)],
      row.resource_id ≠ "" ∧ row.resource_id ≠ "Not Available" ∧
        row.resource_id.length ≤ 255 ∧ row.vtags ≠ "") ∧
    (([(⟨"r", "l", "d:X"⟩ : UploadRecord)]).map (fun row => row.resource_id)).Nodup :=
  upload_groups_invariant [c4recReal] "p" [⟨"r", "l", "d:X"⟩] (by decide)

/-- A one-character string holding the double quote. -/
def dqs : String := ⟨[dqc]⟩

/-- Concatenate a list of strings. -/
def concatStrs : List String → String
  | [] => ""
  | x :: t => x ++ concatStrs t

/-- Left fold of string appends equals the accumulator followed by the
concatenation of the mapped pieces. -/
theorem foldl_strAppend {α : Type} (f : α → String) (l : List α) :
    ∀ acc : String, l.foldl (fun a x => a ++ f x) acc = acc ++ concatStrs (l.map f) := by
  induction l with
  | nil => intro acc; simp [concatStrs]
  | cons x t ih =>
    intro acc
    simp only [List.foldl_cons, List.map_cons, concatStrs, ih]
    rw [String.append_assoc]

/-- The literal header of the per-payer upload CSV (`sync_service.py` line 846). -/
def uploadHeader : String :=
  "Resource Cost,Resource Name,Resource ID,Service,Region,Linked Account,Virtual Tags,Tags"

/-- Wrap a field in double quotes when it contains a comma, exactly as the
conditional reassignments in `_write_upload_csv` do. -/
def quoteIfComma (s : String) : String :=
  if strContainsSub "," s then dqs ++ s ++ dqs else s

/-- One body row of `_write_upload_csv`: only Resource ID and Virtual Tags pass
through the comma-quoting reassignment; Linked Account is interpolated raw. -/
def writeUploadRow (rec : UploadRecord) : String :=
  ",," ++ quoteIfComma rec.resource_id ++ ",,," ++ rec.linked_account ++ "," ++
    quoteIfComma rec.vtags ++ ",\n"

/-- Embedding of `SyncService._write_upload_csv` (`sync_service.py` lines
828-852) as the produced file content: header line then one row per record. -/
def write_upload_csv (records : List UploadRecord) : String :=
  records.foldl (fun acc rec => acc ++ writeUploadRow rec) (uploadHeader ++ "\n")

/-- Modelled from the spec: a body row with every field quoted when it contains
a comma, as the claim reads. -/
def claimRow (rec : UploadRecord) : String :=
  ",," ++ quoteIfComma rec.resource_id ++ ",,," ++ quoteIfComma rec.linked_account ++ "," ++
    quoteIfComma rec.vtags ++ ",\n"

/-- Modelled from the spec: the upload CSV with every comma-carrying field quoted. -/
def claimUploadCsv (records : List UploadRecord) : String :=
  uploadHeader ++ "\n" ++ concatStrs (records.map claimRow)

/-- A record whose linked account contains a comma. -/
def c5rec : UploadRecord := ⟨"r", "a,b", "v"⟩

/-- C5 counterexample: a Linked Account field containing a comma is written
raw, not wrapped in double quotes, so the produced CSV differs from the
claimed all-fields-quoted format. -/
theorem c5_counterexample :
    write_upload_csv [c5rec] = uploadHeader ++ "\n" ++ ",,r,,,a,b,v,\n" ∧
    claimUploadCsv [c5rec] ≠ write_upload_csv [c5rec] := by
  decide

/-- C5 (amended): every per-payer upload CSV is exactly the literal header line
followed, per kept record, by a body row `,,<resource_id>,,,<linked_account>,<vtags>,`
terminated by LF, where the Resource ID and Virtual Tags fields are wrapped in
double quotes when they contain a comma — the Linked Account field is written
raw even when it contains a comma. -/
theorem upload_csv_format (records : List UploadRecord) :
    write_upload_csv records = uploadHeader ++ "\n" ++ concatStrs (records.map writeUploadRow) := by
  unfold write_upload_csv
  exact foldl_strAppend writeUploadRow records (uploadHeader ++ "\n")

/-- Outcome of one page request of `fetch_assets_stream` around a possible 401:
the returned status (`none` = the call raised), the number of re-authentications
performed, and the Authorization token of each HTTP attempt in order.
`authOk` tells whether `authenticate()` succeeds; `resp n` is the status of the
n-th attempt. -/
def fetchAssetsPage (tok0 : String) (authOk : Bool) (newTok : String) (resp : Nat → Nat) :
    (Option Nat) × Nat × List String :=
  if resp 0 = 401 then
    if authOk then
      if resp 1 = 200 then (some (resp 1), 1, [tok0, newTok])
      else (none, 1, [tok0, newTok])
    else (none, 1, [tok0])
  else if resp 0 = 200 then (some (resp 0), 0, [tok0])
  else (none, 0, [tok0])

/-- Embedding of `_get_accounts_plain_sub_users` (`umbrella_client.py` lines
212-246) around a possible 401: the outcome (`error` = the call raised out of
re-authentication, `ok none` = the Python `return None` failure path, `ok some`
= the account list) and the number of HTTP attempts. -/
def getAccountsPSU (authOk : Bool) (resp : Nat → Nat × List String) :
    Except Unit (Option (List String)) × Nat :=
  if (resp 0).1 = 401 then
    if authOk then
      if (resp 1).1 = 200 then (Except.ok (some (resp 1).2), 2)
      else (Except.ok none, 2)
    else (Except.error (), 1)
  else if (resp 0).1 = 200 then (Except.ok (some (resp 0).2), 1)
  else (Except.ok none, 1)

/-- Embedding of `_get_accounts_um2` (`umbrella_client.py` lines 248-280),
which has the same 401 handling and `return None` failure path. -/
def getAccountsUM2 (authOk : Bool) (resp : Nat → Nat × List String) :
    Except Unit (Option (List String)) × Nat :=
  if (resp 0).1 = 401 then
    if authOk then
      if (resp 1).1 = 200 then (Except.ok (some (resp 1).2), 2)
      else (Except.ok none, 2)
    else (Except.error (), 1)
  else if (resp 0).1 = 200 then (Except.ok (some (resp 0).2), 1)
  else (Except.ok none, 1)

/-- Embedding of the endpoint fallback of `get_accounts` (`umbrella_client.py`
lines 177-199): plain-sub-users first, user-management on a `None` result,
and an exception only when both endpoints return `None`. -/
def get_accounts (authOk : Bool) (respPSU respUM2 : Nat → Nat × List String) :
    Except Unit (List String) :=
  match (getAccountsPSU authOk respPSU).1 with
  | Except.error e => Except.error e
  | Except.ok (some a) => Except.ok a
  | Except.ok none =>
    match (getAccountsUM2 authOk respUM2).1 with
    | Except.error e => Except.error e
    | Except.ok (some a) => Except.ok a
    | Except.ok none => Except.error ()

/-- C6 counterexample: when the account-listing call receives a 401 and the
retried call receives another 401, the helper does not raise — it returns the
Python `None` failure value (so `get_accounts` proceeds to the fallback
endpoint), contradicting the claim that a failed retry raises. -/
theorem c6_counterexample :
    (getAccountsPSU true (fun _ => (401, []))).1 = Except.ok none ∧
    (getAccountsPSU true (fun _ => (401, []))).1 ≠ Except.error () := by
  refine ⟨rfl, ?_⟩
  intro h
  rw [show (getAccountsPSU true (fun _ => (401, []))).1 = Except.ok none from rfl] at h
  exact Except.noConfusion h

/-- C6 (amended): on a 401 each upstream data call clears the token,
re-authenticates exactly once, rebuilds the headers (the retry carries the
fresh token) and retries that single call once, never more; a failed retry
makes the asset-page fetch raise, while the account-listing helper returns
`None` without raising and `get_accounts` falls back to the second endpoint,
raising only when both endpoints fail. -/
theorem retry_once_on_401 (tok0 newTok : String) (authOk : Bool)
    (resp : Nat → Nat) (respL respL2 : Nat → Nat × List String) :
    ((fetchAssetsPage tok0 authOk newTok resp).2.1 ≤ 1 ∧
      (fetchAssetsPage tok0 authOk newTok resp).2.2.length ≤ 2) ∧
    (resp 0 = 401 → authOk = true →
      (fetchAssetsPage tok0 authOk newTok resp).2 = (1, [tok0, newTok]) ∧
      (resp 1 ≠ 200 → (fetchAssetsPage tok0 authOk newTok resp).1 = none)) ∧
    ((getAccountsPSU authOk respL).2 ≤ 2) ∧
    ((respL 0).1 = 401 → authOk = true → (respL 1).1 = 401 →
      (getAccountsPSU authOk respL).1 = Except.ok none) ∧
    ((getAccountsPSU authOk respL).1 = Except.ok none →
      (getAccountsUM2 authOk respL2).1 = Except.ok none →
      get_accounts authOk respL respL2 = Except.error ()) := by
  refine ⟨⟨?_, ?_⟩, ?_, ?_, ?_, ?_⟩
  · unfold fetchAssetsPage
    split_ifs <;> simp
  · unfold fetchAssetsPage
    split_ifs <;> simp
  · intro h1 h2
    subst h2
    constructor
    · unfold fetchAssetsPage
      rw [if_pos h1, if_pos rfl]
      split_ifs <;> rfl
    · intro h3
      unfold fetchAssetsPage
      rw [if_pos h1, if_pos rfl, if_neg h3]
  · unfold getAccountsPSU
    split_ifs <;> simp
  · intro h1 h2 h3
    subst h2
    unfold getAccountsPSU
    rw [if_pos h1, if_pos rfl, if_neg (by rw [h3]; decide)]
  · intro h1 h2
    unfold get_accounts
    rw [h1, h2]

/-- Witness for C6 at concrete oracles: both listing attempts 401, asset
attempts 401, fallback endpoint down. -/
theorem retry_once_on_401_witness :
    (fetchAssetsPage "t0" true "t1" (fun _ => 401)).2 = (1, ["t0", "t1"]) ∧
    (fetchAssetsPage "t0" true "t1" (fun _ => 401)).1 = none ∧
    (getAccountsPSU true (fun _ => (401, []))).1 = Except.ok none ∧
    get_accounts true (fun _ => (401, [])) (fun _ => (500, [])) = Except.error () := by
  have T := retry_once_on_401 "t0" "t1" true (fun _ => 401) (fun _ => (401, []))
    (fun _ => (500, []))
  exact ⟨(T.2.1 rfl rfl).1, (T.2.1 rfl rfl).2 (by decide), T.2.2.2.1 rfl rfl rfl,
    T.2.2.2.2 (T.2.2.2.1 rfl rfl rfl) rfl⟩

/-- Uppercase hexadecimal digit. -/
def hexUpper (n : Nat) : Char :=
  if n < 10 then Char.ofNat (48 + n) else Char.ofNat (55 + n)

/-- Percent-encoding of one character, as `urllib.parse.quote_plus` on the
ASCII range used by the query parameters. -/
def urlQuotePlusChar (c : Char) : List Char :=
  if c.isAlphanum || c = '_' || c = '.' || c = '-' || c = '~' then [c]
  else if c = ' ' then ['+']
  else ['%', hexUpper (c.toNat / 16 % 16), hexUpper (c.toNat % 16)]

/-- `urllib.parse.quote_plus` (ASCII model). -/
def urlQuotePlus (s : String) : String :=
  ⟨s.data.foldr (fun c acc => urlQuotePlusChar c ++ acc) []⟩

/-- `urllib.parse.urlencode` over a repeated-key parameter list. -/
def urlencodeParams (ps : List (String × String)) : String :=
  joinSep "&" (ps.map (fun p => urlQuotePlus p.1 ++ "=" ++ urlQuotePlus p.2))

/-- Embedding of the query-parameter construction of `fetch_assets_stream`
(`umbrella_client.py` lines 333-351): dates, fixed flags, the three fixed
columns, `customtags:<key>` for the sorted tag keys when any, then the cost
parameters. -/
def assetParams (startDate endDate : String) (tagKeys : List String) :
    List (String × String) :=
  ([("startDate", startDate), ("endDate", endDate), ("isK8S", "0"), ("granLevel", "week"),
    ("columns", "resourceid"), ("columns", "linkedaccid"), ("columns", "payeraccount")]
   ++ (if tagKeys ≠ [] then (sortStrings tagKeys).map (fun k => ("columns", "customtags:" ++ k)) else [])
   ++ [("costType", "cost"), ("isUnblended", "false")])

/-- The pre-encoded governance filter term appended per dimension
(`umbrella_client.py` line 368). -/
def govTerm (dim : String) : String :=
  "&filters%5Bgovernance_tags_keys%5D=" ++ dim ++ "%3A%20no_tag"

/-- Embedding of the query-string assembly of `fetch_assets_stream`
(`umbrella_client.py` lines 360-370): urlencode the parameter list, then append
one governance term per dimension only in `not_vtagged` mode with a nonempty
dimension list. -/
def buildQueryString (ps : List (String × String)) (mode : String) (dims : List String) :
    String :=
  if mode = "not_vtagged" ∧ dims ≠ [] then
    dims.foldl (fun acc d => acc ++ govTerm d) (urlencodeParams ps)
  else urlencodeParams ps

/-- C7: every asset-stream request carries exactly the three fixed columns plus
`customtags:<key>` for each tag key in sorted order (and only the fixed columns
plus the cost parameters when the key set is empty); one URL-encoded
`filters[governance_tags_keys]=<dim>: no_tag` term is appended per dimension
exactly when `filter_mode = "not_vtagged"` and the dimension list is nonempty,
and no governance filter is emitted for `filter_mode = "all"` or an empty
dimension list. -/
theorem asset_query_columns_and_filters (sd ed : String) (tagKeys : List String)
    (ps : List (String × String)) (dims : List String) (mode : String) :
    ((assetParams sd ed tagKeys).filter (fun p => p.1 = "columns") =
      [("columns", "resourceid"), ("columns", "linkedaccid"), ("columns", "payeraccount")] ++
        (sortStrings tagKeys).map (fun k => ("columns", "customtags:" ++ k))) ∧
    (assetParams sd ed [] =
      [("startDate", sd), ("endDate", ed), ("isK8S", "0"), ("granLevel", "week"),
        ("columns", "resourceid"), ("columns", "linkedaccid"), ("columns", "payeraccount"),
        ("costType", "cost"), ("isUnblended", "false")]) ∧
    (buildQueryString ps "all" dims = urlencodeParams ps) ∧
    (buildQueryString ps mode [] = urlencodeParams ps) ∧
    (dims ≠ [] → buildQueryString ps "not_vtagged" dims =
      urlencodeParams ps ++ concatStrs (dims.map govTerm)) := by
  refine ⟨?_, ?_, ?_, ?_, ?_⟩
  · unfold assetParams
    rw [List.filter_append, List.filter_append]
    have h1 : ([("startDate", sd), ("endDate", ed), ("isK8S", "0"), ("granLevel", "week"),
        ("columns", "resourceid"), ("columns", "linkedaccid"), ("columns", "payeraccount")] :
        List (String × String)).filter (fun p => p.1 = "columns") =
        [("columns", "resourceid"), ("columns", "linkedaccid"), ("columns", "payeraccount")] := by
      simp
    have h2 : (([("costType", "cost"), ("isUnblended", "false")]) :
        List (String × String)).filter (fun p => p.1 = "columns") = [] := by
      simp
    have h3 : ∀ l : List String,
        (l.map (fun k => (("columns" : String), "customtags:" ++ k))).filter
          (fun p => p.1 = "columns") = l.map (fun k => (("columns" : String), "customtags:" ++ k)) := by
      intro l
      induction l with
      | nil => rfl
      | cons x t ih => simp [ih]
    by_cases htk : tagKeys = []
    · subst htk
      simp [h1, h2, sortStrings]
    · rw [if_pos htk, h1, h2, h3]
      simp
  · simp [assetParams]
  · unfold buildQueryString
    rw [if_neg]
    intro hc
    exact absurd hc.1 (by decide)
  · unfold buildQueryString
    rw [if_neg]
    intro hc
    exact hc.2 rfl
  · intro hd
    unfold buildQueryString
    rw [if_pos ⟨rfl, hd⟩]
    exact foldl_strAppend govTerm dims (urlencodeParams ps)

/-- Witness for C7 at a concrete date range, key set, mode and dimension list. -/
theorem asset_query_columns_and_filters_witness :
    buildQueryString [("startDate", "2024-01-01")] "not_vtagged" ["CostCenter"] =
      urlencodeParams [("startDate", "2024-01-01")] ++ concatStrs (["CostCenter"].map govTerm) :=
  (asset_query_columns_and_filters "2024-01-01" "2024-01-07" []
    [("startDate", "2024-01-01")] ["CostCenter"] "not_vtagged").2.2.2.2 (by decide)

/-- An `asyncio.Queue` as used by the progress tracker: a maximum size
(0 = unbounded) and the queued messages. -/
structure AQueue where
  maxsize : Nat
  items : List String
deriving DecidableEq, Repr

/-- `asyncio.Queue.full()`: true only when a positive maxsize is reached. -/
def qFull (q : AQueue) : Bool := (0 < q.maxsize) && (q.maxsize ≤ q.items.length)

/-- `asyncio.Queue.put_nowait`: append, or fail (raise QueueFull) when full. -/
def putNowait (q : AQueue) (m : String) : Option AQueue :=
  if qFull q then none else some { q with items := q.items ++ [m] }

/-- The queue created by `ProgressTracker.subscribe`
(`progress_tracker.py` line 70): `asyncio.Queue()` with the default maxsize 0. -/
def subscribeQueue : AQueue := ⟨0, []⟩

/-- Embedding of `ProgressTracker._broadcast` (`progress_tracker.py` lines
78-91): `put_nowait` into every subscriber queue, then discard every queue
whose put raised QueueFull. -/
def broadcast (subs : List AQueue) (m : String) : List AQueue :=
  subs.filterMap (fun q => putNowait q m)

/-- C8 counterexample: `subscribe()` does not add a bounded queue — it creates
`asyncio.Queue()` with maxsize 0, which is unbounded, so `put_nowait` succeeds
at any backlog and the drop-on-full path can never fire for such a queue. -/
theorem c8_counterexample :
    subscribeQueue.maxsize = 0 ∧
    ¬ 0 < subscribeQueue.maxsize ∧
    (putNowait ⟨0, List.replicate 100 "m"⟩ "m").isSome = true := by
  decide

/-- C8 (amended): `subscribe()` adds an unbounded queue (maxsize 0); at publish
time the broadcaster uses non-blocking puts and drops (removes from the
subscriber set) every subscription whose queue is full instead of waiting, so a
broadcast never stalls on a slow consumer — and a queue created by `subscribe`
is never full, so the drop path is unreachable for those queues. -/
theorem broadcast_drops_full_never_blocks (subs : List AQueue) (m : String) :
    broadcast subs m =
      (subs.filter (fun q => !qFull q)).map (fun q => { q with items := q.items ++ [m] }) ∧
    ∀ items : List String, qFull ⟨0, items⟩ = false := by
  constructor
  · induction subs with
    | nil => rfl
    | cons q t ih =>
      by_cases hq : qFull q
      · simp [broadcast, putNowait, hq] at ih ⊢
        exact ih
      · simp [broadcast, putNowait, hq] at ih ⊢
        exact ih
  · intro items
    simp [qFull]
